import Mathlib

/-!
Shallow embedding of the PSBT v2 crate (rust-psbt-v2) core: the data model,
the combine algorithm (`src/lib.rs`, `src/input.rs`, `src/output.rs`,
`src/macros.rs`), the lock-time resolver (`Psbt::determine_lock_time`), the
funding-UTXO accessor, the Finalizer entry check (`src/roles/finalizer.rs`)
and the v0 output shape validator (`src/output.rs`).

Modelling conventions:
- Opaque byte-level values (txids, scripts, public keys, hashes, witnesses,
  signatures, fingerprints) are modelled as `Nat`; derivation paths as
  `List Nat`; amounts as `Nat`.
- `BTreeMap` is modelled as an association list. `alistInsert` replaces an
  existing binding in place (as `BTreeMap::insert` does); `btreeExtend`
  models `BTreeMap::extend` (insert every entry of the second map, so a
  duplicate key receives the second map's value). We only state
  order-independent (lookup-level) facts about maps built this way.
- Fallible Rust functions become `Except`-valued functions. Places where the
  Rust code can panic (the `expect` calls in `determine_lock_time`, and the
  slice-index underflow in the xpub merge) are modelled by explicit
  `panicked` outcomes, never silently removed.
- The crate field `partial_sigs` is named `partSigs` here.
-/

namespace PsbtV2

/-- A transaction output (`bitcoin::TxOut`): amount plus scriptPubKey. -/
structure TxOut where
  value : Nat
  scriptPubkey : Nat
deriving DecidableEq, Repr

/-- A previous transaction, reduced to the only part the crate inspects:
its list of outputs (`tx.output`). -/
structure Tx where
  outputs : List TxOut
deriving DecidableEq, Repr

/-- `EcdsaSighashType`: the six standard ECDSA sighash flags. -/
inductive EcdsaSighashType where
  | all
  | noneTy
  | single
  | allAcp
  | noneAcp
  | singleAcp
deriving DecidableEq, Repr

/-- Numeric value of a standard sighash flag (`EcdsaSighashType as u32`). -/
def EcdsaSighashType.toNum : EcdsaSighashType → Nat
  | .all => 1
  | .noneTy => 2
  | .single => 3
  | .allAcp => 129
  | .noneAcp => 130
  | .singleAcp => 131

/-- `EcdsaSighashType::from_standard` / `PsbtSighashType::ecdsa_hash_ty`:
succeeds exactly on the six standard values. -/
def fromStandard (n : Nat) : Option EcdsaSighashType :=
  if n = 1 then some .all
  else if n = 2 then some .noneTy
  else if n = 3 then some .single
  else if n = 129 then some .allAcp
  else if n = 130 then some .noneAcp
  else if n = 131 then some .singleAcp
  else none

/-- An ECDSA signature as stored in `partial_sigs`: opaque signature bytes
plus its (always standard) sighash flag. -/
structure EcdsaSig where
  sig : Nat
  sighashTy : EcdsaSighashType
deriving DecidableEq, Repr

/-- A BIP-32 key source: (fingerprint, derivation path). -/
def KeySource : Type := Nat × List Nat
deriving instance DecidableEq, Repr for KeySource

/-- The crate's `Input` struct (src/input.rs): required `previous_txid` and
`spent_output_index`, plus the optional and map-valued fields. -/
structure Input where
  previousTxid : Nat
  spentOutputIndex : Nat
  sequence : Option Nat
  minTime : Option Nat
  minHeight : Option Nat
  nonWitnessUtxo : Option Tx
  witnessUtxo : Option TxOut
  partSigs : List (Nat × EcdsaSig)
  sighashType : Option Nat
  redeemScript : Option Nat
  witnessScript : Option Nat
  bip32Derivation : List (Nat × KeySource)
  finalScriptSig : Option Nat
  finalScriptWitness : Option (List Nat)
  ripemd160Preimages : List (Nat × Nat)
  sha256Preimages : List (Nat × Nat)
  hash160Preimages : List (Nat × Nat)
  hash256Preimages : List (Nat × Nat)
  tapKeySig : Option Nat
  tapScriptSigs : List (Nat × Nat)
  tapScripts : List (Nat × Nat)
  tapKeyOrigins : List (Nat × Nat)
  tapInternalKey : Option Nat
  tapMerkleRoot : Option Nat
deriving DecidableEq, Repr

/-- The crate's `Output` struct (src/output.rs): required `amount` and
`script_pubkey`, plus the optional and map-valued fields. -/
structure Output where
  amount : Nat
  scriptPubkey : Nat
  redeemScript : Option Nat
  witnessScript : Option Nat
  bip32Derivation : List (Nat × KeySource)
  tapInternalKey : Option Nat
  tapTree : Option Nat
  tapKeyOrigins : List (Nat × Nat)
deriving DecidableEq, Repr

/-- `absolute::LockTime`: either a block height or a Unix timestamp. -/
inductive LockTime where
  | blocks (h : Nat)
  | seconds (t : Nat)
deriving DecidableEq, Repr

/-- The crate's `Psbt` struct (src/lib.rs). -/
structure Psbt where
  txVersion : Int
  fallbackLockTime : LockTime
  inputCount : Nat
  outputCount : Nat
  txModifiableFlags : Nat
  xpub : List (Nat × KeySource)
  inputs : List Input
  outputs : List Output
deriving DecidableEq, Repr

/-! ### Association-list model of `BTreeMap` -/

/-- Lookup in an association list (first binding wins; bindings are unique
for lists that model a `BTreeMap`). -/
def alistLookup {κ ν : Type} [DecidableEq κ] : List (κ × ν) → κ → Option ν
  | [], _ => none
  | (k, v) :: rest, key => if key = k then some v else alistLookup rest key

/-- `BTreeMap::insert`: replace the binding in place if the key is present,
otherwise add a new binding. -/
def alistInsert {κ ν : Type} [DecidableEq κ] : List (κ × ν) → κ → ν → List (κ × ν)
  | [], key, val => [(key, val)]
  | (k, v) :: rest, key, val =>
    if key = k then (key, val) :: rest else (k, v) :: alistInsert rest key val

/-- `BTreeMap::extend`, the body of the `combine_map!` macro (src/macros.rs):
insert every entry of `other` into `self`, so on a duplicate key the entry of
`other` (the second operand) replaces the entry of `self`. -/
def btreeExtend {κ ν : Type} [DecidableEq κ] (self other : List (κ × ν)) : List (κ × ν) :=
  other.foldl (fun m e => alistInsert m e.1 e.2) self

/-! ### Combine -/

/-- The `combine_option!` macro (src/macros.rs): set `self.thing` to
`other.thing` iff `self.thing` is `None`. -/
def combineOption {α : Type} : Option α → Option α → Option α
  | some v, _ => some v
  | none, o => o

/-- The crate's `CombineError` (variants from src/lib.rs, src/input.rs and
src/output.rs). -/
inductive CombineError where
  | txVersionMismatch (this that : Int)
  | inconsistentKeySources (xpubKey : Nat)
  | previousTxidMismatch (this that : Nat)
  | spentOutputIndexMismatch (this that : Nat)
  | amountMismatch (this that : Nat)
  | scriptPubkeyMismatch (this that : Nat)
deriving DecidableEq, Repr

/-- A combine step either returns a typed `CombineError` or hits a Rust
panic (the slice-index underflow in the xpub merge). -/
inductive CombineFailure where
  | err (e : CombineError)
  | panicked
deriving DecidableEq, Repr

/-- `Input::combine` (src/input.rs): check the identifying pair, then merge
field by field with `combine_option!` / `combine_map!`; `witness_utxo` has a
special case that clears `non_witness_utxo`, and `sighash_type` is not
merged at all. -/
def Input.combine (a b : Input) : Except CombineFailure Input :=
  if a.previousTxid ≠ b.previousTxid then
    .error (.err (.previousTxidMismatch a.previousTxid b.previousTxid))
  else if a.spentOutputIndex ≠ b.spentOutputIndex then
    .error (.err (.spentOutputIndexMismatch a.spentOutputIndex b.spentOutputIndex))
  else
    let nwu := combineOption a.nonWitnessUtxo b.nonWitnessUtxo
    let wuPair : Option TxOut × Option Tx :=
      match a.witnessUtxo, b.witnessUtxo with
      | none, some w => (some w, none)
      | _, _ => (a.witnessUtxo, nwu)
    .ok { a with
      sequence := combineOption a.sequence b.sequence
      minTime := combineOption a.minTime b.minTime
      minHeight := combineOption a.minHeight b.minHeight
      nonWitnessUtxo := wuPair.2
      witnessUtxo := wuPair.1
      partSigs := btreeExtend a.partSigs b.partSigs
      redeemScript := combineOption a.redeemScript b.redeemScript
      witnessScript := combineOption a.witnessScript b.witnessScript
      bip32Derivation := btreeExtend a.bip32Derivation b.bip32Derivation
      finalScriptSig := combineOption a.finalScriptSig b.finalScriptSig
      finalScriptWitness := combineOption a.finalScriptWitness b.finalScriptWitness
      ripemd160Preimages := btreeExtend a.ripemd160Preimages b.ripemd160Preimages
      sha256Preimages := btreeExtend a.sha256Preimages b.sha256Preimages
      hash160Preimages := btreeExtend a.hash160Preimages b.hash160Preimages
      hash256Preimages := btreeExtend a.hash256Preimages b.hash256Preimages
      tapKeySig := combineOption a.tapKeySig b.tapKeySig
      tapScriptSigs := btreeExtend a.tapScriptSigs b.tapScriptSigs
      tapScripts := btreeExtend a.tapScripts b.tapScripts
      tapKeyOrigins := btreeExtend a.tapKeyOrigins b.tapKeyOrigins
      tapInternalKey := combineOption a.tapInternalKey b.tapInternalKey
      tapMerkleRoot := combineOption a.tapMerkleRoot b.tapMerkleRoot }

/-- `Output::combine` (src/output.rs): check amount and scriptPubKey, then
merge the optional and map-valued fields. (The source also names
`proprietaries`/`unknowns` maps, but the `Output` struct declares no such
fields, so there is nothing to merge for them.) -/
def Output.combine (a b : Output) : Except CombineFailure Output :=
  if a.amount ≠ b.amount then
    .error (.err (.amountMismatch a.amount b.amount))
  else if a.scriptPubkey ≠ b.scriptPubkey then
    .error (.err (.scriptPubkeyMismatch a.scriptPubkey b.scriptPubkey))
  else
    .ok { a with
      redeemScript := combineOption a.redeemScript b.redeemScript
      witnessScript := combineOption a.witnessScript b.witnessScript
      bip32Derivation := btreeExtend a.bip32Derivation b.bip32Derivation
      tapInternalKey := combineOption a.tapInternalKey b.tapInternalKey
      tapTree := combineOption a.tapTree b.tapTree
      tapKeyOrigins := btreeExtend a.tapKeyOrigins b.tapKeyOrigins }

/-- One step of the xpub merge loop in `Psbt::combine` (src/lib.rs): merge a
single `(xpub, (fingerprint, derivation))` entry of `other` into the map.

The source evaluates
`derivation1[derivation1.len() - derivation2.len()..]` in the second branch;
when `derivation1` (the incoming path) is strictly shorter than
`derivation2` the `usize` subtraction underflows and the program panics,
which we model by `CombineFailure.panicked`. -/
def xpubMergeOne (m : List (Nat × KeySource)) (x : Nat) (f1 : Nat) (d1 : List Nat) :
    Except CombineFailure (List (Nat × KeySource)) :=
  match alistLookup m x with
  | none => .ok (alistInsert m x (f1, d1))
  | some (f2, d2) =>
    if (d1 = d2 ∧ f1 = f2) ∨
        (d1.length < d2.length ∧ d1 = d2.drop (d2.length - d1.length)) then
      .ok m
    else if d1.length < d2.length then
      .error .panicked
    else if d2 = d1.drop (d1.length - d2.length) then
      .ok (alistInsert m x (f1, d1))
    else
      .error (.err (.inconsistentKeySources x))

/-- The xpub merge loop of `Psbt::combine` (src/lib.rs): fold every entry of
`other`'s xpub map into `self`'s. -/
def xpubsMerge (self other : List (Nat × KeySource)) :
    Except CombineFailure (List (Nat × KeySource)) :=
  other.foldlM (fun m e => xpubMergeOne m e.1 e.2.1 e.2.2) self

/-- The global part of combining, `Psbt::combine` in src/lib.rs: reject a
transaction-version mismatch, sum the two counts
(`self.input_count += other.input_count`), and merge the xpub maps. -/
def Psbt.combineGlobal (a b : Psbt) : Except CombineFailure Psbt :=
  if a.txVersion ≠ b.txVersion then
    .error (.err (.txVersionMismatch a.txVersion b.txVersion))
  else
    match xpubsMerge a.xpub b.xpub with
    | .error e => .error e
    | .ok xs =>
      .ok { a with
        inputCount := a.inputCount + b.inputCount
        outputCount := a.outputCount + b.outputCount
        xpub := xs }

/-- The per-element loops of `Psbt::combine_with`:
`self.inputs.iter_mut().zip(other.inputs.into_iter())` pairs elements
positionally up to the shorter length, leaves `self`'s extra elements
unchanged and drops `other`'s extra elements. -/
def zipCombineM {α : Type} (f : α → α → Except CombineFailure α) :
    List α → List α → Except CombineFailure (List α)
  | xs, [] => .ok xs
  | [], _ :: _ => .ok []
  | x :: xs, y :: ys =>
    match f x y with
    | .error e => .error e
    | .ok z =>
      match zipCombineM f xs ys with
      | .error e => .error e
      | .ok zs => .ok (z :: zs)

/-- `Psbt::combine_with` (src/lib.rs): combine the global fields, then the
inputs pairwise, then the outputs pairwise. -/
def Psbt.combineWith (a b : Psbt) : Except CombineFailure Psbt :=
  match a.combineGlobal b with
  | .error e => .error e
  | .ok g =>
    match zipCombineM Input.combine a.inputs b.inputs with
    | .error e => .error e
    | .ok ins =>
      match zipCombineM Output.combine a.outputs b.outputs with
      | .error e => .error e
      | .ok outs => .ok { g with inputs := ins, outputs := outs }

/-- The crate-level `combine(this, that)` function (src/lib.rs), which just
delegates to `combine_with`. -/
def combine (a b : Psbt) : Except CombineFailure Psbt := a.combineWith b

/-! ### Lock-time resolver -/

/-- `Input::requires_time_based_lock_time` (src/input.rs):
`min_time` set and `min_height` unset. -/
def Input.requiresTimeBasedLockTime (i : Input) : Bool :=
  i.minTime.isSome && i.minHeight.isNone

/-- `Input::requires_height_based_lock_time` (src/input.rs):
`min_height` set and `min_time` unset. -/
def Input.requiresHeightBasedLockTime (i : Input) : Bool :=
  i.minHeight.isSome && i.minTime.isNone

/-- `Input::has_lock_time` (src/input.rs): either field set. -/
def Input.hasLockTime (i : Input) : Bool :=
  i.minTime.isSome || i.minHeight.isSome

/-- `Input::is_satisfied_with_height_based_lock_time` (src/input.rs). -/
def Input.isSatisfiedWithHeightBasedLockTime (i : Input) : Bool :=
  i.requiresHeightBasedLockTime ||
    (i.minTime.isSome && i.minHeight.isSome) ||
    (i.minTime.isNone && i.minHeight.isNone)

/-- The Rust `Ord` join on `Option<Nat>` (`None` is least): the step taken by
`Iterator::max` over an iterator of options. -/
def optMax : Option Nat → Option Nat → Option Nat
  | none, b => b
  | some a, none => some a
  | some a, some b => some (Nat.max a b)

/-- `Iterator::max` over a list of `Option Nat` values: `none` on the empty
list, otherwise `some` of the largest set value (if any value is set). -/
def listMaxOpt (l : List (Option Nat)) : Option Nat := l.foldr optMax none

/-- Outcome of `Psbt::determine_lock_time`: a lock time, the
`DetermineLockTimeError`, or a panic of one of the two `expect` calls. -/
inductive LtOutcome where
  | ok (lt : LockTime)
  | error
  | panicked
deriving DecidableEq, Repr

/-- `Psbt::determine_lock_time` (src/lib.rs): error on conflicting
requirement kinds; fall back to the document lock time when no input has a
lock-time field; otherwise take the maximum height if every input is
satisfied by a height-based lock time, else the maximum time. -/
def Psbt.determineLockTime (p : Psbt) : LtOutcome :=
  if p.inputs.any Input.requiresTimeBasedLockTime &&
      p.inputs.any Input.requiresHeightBasedLockTime then
    LtOutcome.error
  else if p.inputs.any Input.hasLockTime then
    if p.inputs.all Input.isSatisfiedWithHeightBasedLockTime then
      match listMaxOpt (p.inputs.map Input.minHeight) with
      | some h => LtOutcome.ok (LockTime.blocks h)
      | none => LtOutcome.panicked
    else
      match listMaxOpt (p.inputs.map Input.minTime) with
      | some t => LtOutcome.ok (LockTime.seconds t)
      | none => LtOutcome.panicked
  else
    LtOutcome.ok p.fallbackLockTime

/-- The maximum of a list of naturals, `none` on the empty list. Used to
state "the maximum `min_height`/`min_time` across all inputs that set it";
`specMax_mem` and `specMax_ge` below certify that it is that maximum. -/
def specMax : List Nat → Option Nat
  | [] => none
  | x :: xs =>
    some (match specMax xs with
          | none => x
          | some y => Nat.max x y)

/-! ### Funding UTXO and Finalizer entry -/

/-- `FundingUtxoError` (src/error.rs). -/
inductive FundingUtxoError where
  | outOfBounds (vout len : Nat)
  | missingUtxo
deriving DecidableEq, Repr

/-- `Input::funding_utxo` (src/input.rs): prefer `witness_utxo`, else index
`non_witness_utxo`'s outputs by `spent_output_index`, else fail. -/
def Input.fundingUtxo (i : Input) : Except FundingUtxoError TxOut :=
  match i.witnessUtxo with
  | some u => .ok u
  | none =>
    match i.nonWitnessUtxo with
    | some tx =>
      match tx.outputs.get? i.spentOutputIndex with
      | some o => .ok o
      | none => .error (.outOfBounds i.spentOutputIndex tx.outputs.length)
    | none => .error .missingUtxo

/-- `PartialSigsSighashTypeError` (src/roles/finalizer.rs), with the error
payloads reduced to the offending numeric sighash value / keys. -/
inductive SighashTypeError where
  | nonStandardInputSighashType (inputIndex : Nat) (ty : Nat)
  | nonStandardSigSighashType (inputIndex : Nat) (ty : Nat)
  | wrongSighashFlag (inputIndex : Nat) (got required : EcdsaSighashType) (pubkey : Nat)
deriving DecidableEq, Repr

/-- The inner loop of `Finalizer::check_partial_sigs_sighash_type`: check
every recorded signature of one input against the target flag. -/
def checkSigsList (idx : Nat) (target : EcdsaSighashType) :
    List (Nat × EcdsaSig) → Except SighashTypeError Unit
  | [] => .ok ()
  | (k, s) :: rest =>
    match fromStandard s.sighashTy.toNum with
    | none => .error (.nonStandardSigSighashType idx s.sighashTy.toNum)
    | some flag =>
      if target ≠ flag then .error (.wrongSighashFlag idx flag target k)
      else checkSigsList idx target rest

/-- Per-input part of `Finalizer::check_partial_sigs_sighash_type`: the
target flag is the input's declared sighash type (which must be standard),
defaulting to `SIGHASH_ALL` when absent. -/
def checkInputSighash (idx : Nat) (i : Input) : Except SighashTypeError Unit :=
  match i.sighashType with
  | some ty =>
    match fromStandard ty with
    | none => .error (.nonStandardInputSighashType idx ty)
    | some t => checkSigsList idx t i.partSigs
  | none => checkSigsList idx EcdsaSighashType.all i.partSigs

/-- `Finalizer::check_partial_sigs_sighash_type` (src/roles/finalizer.rs):
check all inputs in order, carrying the input index. -/
def checkAllSighash : Nat → List Input → Except SighashTypeError Unit
  | _, [] => .ok ()
  | idx, i :: rest =>
    match checkInputSighash idx i with
    | .error e => .error e
    | .ok _ => checkAllSighash (idx + 1) rest

/-- The first funding-UTXO error among the inputs, if any: the failure the
`?`-propagated funding check in `Finalizer::new` reports. -/
def firstFundingErr : List Input → Option FundingUtxoError
  | [] => none
  | i :: rest =>
    match i.fundingUtxo with
    | .error e => some e
    | .ok _ => firstFundingErr rest

/-- `finalizer::Error` (src/roles/finalizer.rs). -/
inductive FinalizerError where
  | fundingUtxo (e : FundingUtxoError)
  | determineLockTime
  | sighashType (e : SighashTypeError)
deriving DecidableEq, Repr

/-- Outcome of `Finalizer::new`: the wrapped PSBT, a typed error, or the
propagated panic of `determine_lock_time`. -/
inductive FinalizerOutcome where
  | ok (p : Psbt)
  | error (e : FinalizerError)
  | panicked
deriving DecidableEq, Repr

/-- `Finalizer::new` (src/roles/finalizer.rs): every input must yield a
funding UTXO, the lock time must be determinable, and every partial
signature's sighash type must pass the check; then the PSBT is wrapped. -/
def finalizerNew (p : Psbt) : FinalizerOutcome :=
  match firstFundingErr p.inputs with
  | some e => .error (.fundingUtxo e)
  | none =>
    match p.determineLockTime with
    | .error => .error .determineLockTime
    | .panicked => .panicked
    | .ok _ =>
      match checkAllSighash 0 p.inputs with
      | .error e => .error (.sighashType e)
      | .ok _ => .ok p

/-! ### v0 output shape validation -/

/-- The loosely-typed wire record passed to the v0 output validator in
src/output.rs (the source declares the parameter as a wire input record; the
fields named by the function body and by the claim are `sequence`, `amount`
and `script_pubkey`, all optional). -/
structure WireOutput where
  sequence : Option Nat
  amount : Option Nat
  scriptPubkey : Option Nat
deriving DecidableEq, Repr

/-- `V0InvalidError` for outputs (src/output.rs). -/
inductive OutputV0InvalidError where
  | hasAmount
  | hasScriptPubkey
deriving DecidableEq, Repr

/-- `assert_is_valid_v0` in src/output.rs, as written: the first check tests
the record's `sequence` field and reports `HasAmount`; the second tests
`script_pubkey` and reports `HasScriptPubkey`. -/
def outputAssertIsValidV0 (o : WireOutput) : Except OutputV0InvalidError Unit :=
  if o.sequence.isSome then .error .hasAmount
  else if o.scriptPubkey.isSome then .error .hasScriptPubkey
  else .ok ()

/-! ### Spec-side definitions and small helpers -/

/-- Written from the spec's words for the optional-scalar merge rule:
"keep `a`'s value if present, else take `b`'s". -/
def specKeepFirst {α : Type} (x y : Option α) : Option α :=
  if x.isSome then x else y

/-- Written from the spec's words for the sighash-match requirement: the
signature's flag equals the input's declared sighash type (default
`SIGHASH_ALL` when the input declares none). -/
def sigTargetMatches (i : Input) (s : EcdsaSig) : Prop :=
  match i.sighashType with
  | none => s.sighashTy = EcdsaSighashType.all
  | some ty => fromStandard ty = some s.sighashTy

/-- `Result::is_ok`. -/
def exceptIsOk {ε α : Type} : Except ε α → Bool
  | .ok _ => true
  | .error _ => false

/-- `Result::ok`. -/
def exceptToOption {ε α : Type} : Except ε α → Option α
  | .ok a => some a
  | .error _ => none

/-- The expected element at position `i` after the pairwise merge loop:
the merge result where both lists have an `i`-th element, the first list's
element where only it has one, nothing beyond the first list's length. -/
def zipSpec {α : Type} (f : α → α → Except CombineFailure α)
    (xs ys : List α) (i : Nat) : Option α :=
  match xs.get? i, ys.get? i with
  | some x, some y => exceptToOption (f x y)
  | some x, none => some x
  | none, _ => none

/-! ### Concrete documents used to evaluate the code -/

/-- An input with only the mandatory identifying pair set. -/
def exInput : Input :=
  { previousTxid := 1, spentOutputIndex := 0, sequence := none, minTime := none
    minHeight := none, nonWitnessUtxo := none, witnessUtxo := none, partSigs := []
    sighashType := none, redeemScript := none, witnessScript := none
    bip32Derivation := [], finalScriptSig := none, finalScriptWitness := none
    ripemd160Preimages := [], sha256Preimages := [], hash160Preimages := []
    hash256Preimages := [], tapKeySig := none, tapScriptSigs := [], tapScripts := []
    tapKeyOrigins := [], tapInternalKey := none, tapMerkleRoot := none }

/-- An empty v2 document. -/
def basePsbt : Psbt :=
  { txVersion := 2, fallbackLockTime := LockTime.blocks 0, inputCount := 0
    outputCount := 0, txModifiableFlags := 0, xpub := [], inputs := [], outputs := [] }

/-- A well-formed one-input document (`input_count` matches the sequence). -/
def exPsbtOneInput : Psbt := { basePsbt with inputCount := 1, inputs := [exInput] }

/-- Like `exPsbtOneInput` but the input carries `sequence = Some 1`. -/
def exPsbtSeq1 : Psbt :=
  { basePsbt with inputCount := 1, inputs := [{ exInput with sequence := some 1 }] }

/-- Like `exPsbtOneInput` but the input carries `sequence = Some 2`. -/
def exPsbtSeq2 : Psbt :=
  { basePsbt with inputCount := 1, inputs := [{ exInput with sequence := some 2 }] }

/-- Document with xpub key 5 at fingerprint 10, derivation path [1]. -/
def exPsbtXpubF10 : Psbt := { basePsbt with xpub := [(5, (10, [1]))] }

/-- Document with xpub key 5 at fingerprint 20, the same path [1]. -/
def exPsbtXpubF20 : Psbt := { basePsbt with xpub := [(5, (20, [1]))] }

/-- Document with xpub key 5 at path [0, 1]. -/
def exPsbtXpubLong : Psbt := { basePsbt with xpub := [(5, (10, [0, 1]))] }

/-- Document with xpub key 5 at the shorter path [5], not a suffix of [0, 1]. -/
def exPsbtXpubShort : Psbt := { basePsbt with xpub := [(5, (10, [5]))] }

/-- An input spending a different previous transaction (txid 9). -/
def exInputOther : Input := { exInput with previousTxid := 9 }

/-- Two-input document: the second input is extra relative to `exPsbtOneInput`. -/
def exPsbtTwoInputs : Psbt :=
  { basePsbt with inputCount := 2, inputs := [exInput, exInputOther] }

/-- Input with a one-output previous transaction attached as funding evidence. -/
def exInputNonWitness : Input :=
  { exInput with nonWitnessUtxo := some { outputs := [{ value := 50, scriptPubkey := 7 }] } }

/-- Input with the spent output attached directly as funding evidence. -/
def exInputWitness : Input :=
  { exInput with witnessUtxo := some { value := 50, scriptPubkey := 7 } }

/-- Input whose partial-signature map binds key 7 to signature bytes 1. -/
def exInputSig1 : Input :=
  { exInput with partSigs := [(7, { sig := 1, sighashTy := EcdsaSighashType.all })] }

/-- Input whose partial-signature map binds key 7 to signature bytes 2. -/
def exInputSig2 : Input :=
  { exInput with partSigs := [(7, { sig := 2, sighashTy := EcdsaSighashType.all })] }

/-! ### Theorems -/

/-- C2: `combine` is not commutative. The two one-input documents
`exPsbtSeq1` and `exPsbtSeq2` differ only in their input's `sequence`
(`Some 1` vs `Some 2`); combining in either order succeeds, but each order
keeps the first operand's sequence, so the results differ — contradicting
the claim and the function's own doc comment. -/
theorem combine_not_commutative_eval :
    combine exPsbtSeq1 exPsbtSeq2 = .ok { exPsbtSeq1 with inputCount := 2 } ∧
    combine exPsbtSeq2 exPsbtSeq1 = .ok { exPsbtSeq2 with inputCount := 2 } ∧
    ({ exPsbtSeq1 with inputCount := 2 } : Psbt) ≠ { exPsbtSeq2 with inputCount := 2 } := by
  refine ⟨rfl, rfl, by decide⟩

/-- C3: combining a well-formed one-input document with an identical copy of
itself succeeds but does not return the document itself: the input counts
are summed (`1 + 1 = 2`), so `combine(a, a) ≠ a`. -/
theorem combine_self_not_idempotent_eval :
    combine exPsbtOneInput exPsbtOneInput = .ok { exPsbtOneInput with inputCount := 2 } ∧
    ({ exPsbtOneInput with inputCount := 2 } : Psbt) ≠ exPsbtOneInput := by
  refine ⟨rfl, by decide⟩

/-- C4: after a successful combine the counts are not recomputed from the
merged sequences: combining the one-input document with itself yields
`input_count = 2` but an input sequence of length 1. -/
theorem combine_counts_summed_eval :
    (exceptToOption (combine exPsbtOneInput exPsbtOneInput)).map
        (fun r => (r.inputCount, r.inputs.length)) = some (2, 1) := by
  rfl

/-- C5: the xpub merge deviates from the claim in two ways. With key 5 in
both maps at the identical path `[1]` but different fingerprints (10 vs 20),
combine succeeds and silently keeps the second operand's entry instead of
failing with an inconsistent-key-sources error; and when the second
operand's path `[5]` is strictly shorter than, and not a suffix of, the
first's `[0, 1]`, the merge panics (slice-index underflow) instead of
returning that error. -/
theorem xpub_merge_eval :
    combine exPsbtXpubF10 exPsbtXpubF20 =
      .ok { exPsbtXpubF10 with xpub := [(5, (20, [1]))] } ∧
    combine exPsbtXpubLong exPsbtXpubShort = .error CombineFailure.panicked := by
  refine ⟨rfl, rfl⟩

/-- C6 counterexample: `combine_map!` uses `BTreeMap::extend`, so on a
duplicate key the merged map keeps the second operand's entry, not the
first's. Both inputs bind public key 7; the first to signature bytes 1, the
second to signature bytes 2; the merged map holds signature bytes 2. -/
theorem combine_map_keeps_second_eval :
    Input.combine exInputSig1 exInputSig2 = .ok exInputSig2 ∧
    alistLookup exInputSig1.partSigs 7 = some { sig := 1, sighashTy := EcdsaSighashType.all } ∧
    alistLookup exInputSig2.partSigs 7 = some { sig := 2, sighashTy := EcdsaSighashType.all } ∧
    ({ sig := 1, sighashTy := EcdsaSighashType.all } : EcdsaSig) ≠
      { sig := 2, sighashTy := EcdsaSighashType.all } := by
  refine ⟨rfl, rfl, rfl, by decide⟩

/-- Looking up after an insert: the inserted key maps to the new value and
every other key is unchanged. -/
theorem alistLookup_insert {κ ν : Type} [DecidableEq κ]
    (m : List (κ × ν)) (k0 : κ) (v0 : ν) (k : κ) :
    alistLookup (alistInsert m k0 v0) k = if k = k0 then some v0 else alistLookup m k := by
  induction m with
  | nil => simp [alistInsert, alistLookup]
  | cons e rest ih =>
    obtain ⟨k1, v1⟩ := e
    by_cases h0 : k0 = k1
    · subst h0
      by_cases hk : k = k0 <;> simp [alistInsert, alistLookup, hk]
    · by_cases hk : k = k1
      · subst hk
        have hkk0 : ¬ k = k0 := fun h => h0 h.symm
        simp [alistInsert, alistLookup, h0, hkk0]
      · simp [alistInsert, alistLookup, h0, hk, ih]

/-- A key outside a map's key set looks up to `none`. -/
theorem alistLookup_eq_none {κ ν : Type} [DecidableEq κ]
    (m : List (κ × ν)) (k : κ) (h : k ∉ m.map Prod.fst) :
    alistLookup m k = none := by
  induction m with
  | nil => rfl
  | cons e rest ih =>
    obtain ⟨k1, v1⟩ := e
    simp only [List.map_cons, List.mem_cons] at h
    push_neg at h
    simp [alistLookup, h.1, ih h.2]

/-- C6 (amended): `combine_map!` (`BTreeMap::extend`) merges two maps so
that the merged key set is the union of the two and, on a duplicate key, the
second operand's entry wins: looking up any key in the merged map returns
the second map's binding when present, otherwise the first map's. The
hypothesis that the second map's keys are distinct is the `BTreeMap`
invariant. -/
theorem combine_map_lookup {κ ν : Type} [DecidableEq κ]
    (a b : List (κ × ν)) (hnd : (b.map Prod.fst).Nodup) (k : κ) :
    alistLookup (btreeExtend a b) k =
      match alistLookup b k with
      | some v => some v
      | none => alistLookup a k := by
  induction b generalizing a with
  | nil => rfl
  | cons e rest ih =>
    obtain ⟨k1, v1⟩ := e
    simp only [List.map_cons, List.nodup_cons] at hnd
    have hstep : btreeExtend a ((k1, v1) :: rest) = btreeExtend (alistInsert a k1 v1) rest := rfl
    rw [hstep, ih (alistInsert a k1 v1) hnd.2]
    by_cases hk : k = k1
    · subst hk
      rw [alistLookup_eq_none rest k hnd.1]
      simp [alistLookup, alistLookup_insert]
    · cases hr : alistLookup rest k <;> simp [alistLookup, hk, hr, alistLookup_insert]

/-- C6 witness: `combine_map_lookup` at the concrete singleton maps
`[(0, 1)]` and `[(0, 2)]` and key 0. -/
theorem combine_map_lookup_witness :
    alistLookup (btreeExtend [((0 : Nat), (1 : Nat))] [(0, 2)]) 0 =
      match alistLookup [((0 : Nat), (2 : Nat))] 0 with
      | some v => some v
      | none => alistLookup [((0 : Nat), (1 : Nat))] 0 :=
  combine_map_lookup [(0, 1)] [(0, 2)] (by decide) 0

/-- C7 counterexample: a present value of `a` can be removed by the merge.
`exInputNonWitness` carries a present `non_witness_utxo` and no
`witness_utxo`; combining with an input that carries a `witness_utxo`
returns an input whose `non_witness_utxo` has been cleared to `None`. -/
theorem nonwitness_cleared_eval :
    (exceptToOption (Input.combine exInputNonWitness exInputWitness)).map
        Input.nonWitnessUtxo = some none ∧
    exInputNonWitness.nonWitnessUtxo =
      some { outputs := [{ value := 50, scriptPubkey := 7 }] } := by
  refine ⟨rfl, rfl⟩

/-- The `combine_option!` macro implements the spec's "keep `a`'s value if
present, else take `b`'s". -/
theorem combineOption_eq_specKeepFirst {α : Type} (x y : Option α) :
    combineOption x y = specKeepFirst x y := by
  cases x <;> simp [combineOption, specKeepFirst]

/-- C7 (amended): for inputs with matching identifying pairs, combining
merges each optional scalar field by "keep `a`'s if present, else `b`'s" —
except that `sighash_type` is always `a`'s (`b`'s is ignored even when `a`'s
is absent), and a present `non_witness_utxo` of `a` is cleared whenever `a`
has no `witness_utxo` and `b` supplies one. -/
theorem input_combine_scalar_fields (a b : Input)
    (h1 : a.previousTxid = b.previousTxid) (h2 : a.spentOutputIndex = b.spentOutputIndex) :
    ∃ r, Input.combine a b = .ok r ∧
      r.sequence = specKeepFirst a.sequence b.sequence ∧
      r.minTime = specKeepFirst a.minTime b.minTime ∧
      r.minHeight = specKeepFirst a.minHeight b.minHeight ∧
      r.redeemScript = specKeepFirst a.redeemScript b.redeemScript ∧
      r.witnessScript = specKeepFirst a.witnessScript b.witnessScript ∧
      r.finalScriptSig = specKeepFirst a.finalScriptSig b.finalScriptSig ∧
      r.finalScriptWitness = specKeepFirst a.finalScriptWitness b.finalScriptWitness ∧
      r.tapKeySig = specKeepFirst a.tapKeySig b.tapKeySig ∧
      r.tapInternalKey = specKeepFirst a.tapInternalKey b.tapInternalKey ∧
      r.tapMerkleRoot = specKeepFirst a.tapMerkleRoot b.tapMerkleRoot ∧
      r.sighashType = a.sighashType ∧
      r.witnessUtxo = specKeepFirst a.witnessUtxo b.witnessUtxo ∧
      r.nonWitnessUtxo =
        (if a.witnessUtxo.isNone ∧ b.witnessUtxo.isSome then none
         else specKeepFirst a.nonWitnessUtxo b.nonWitnessUtxo) := by
  have hne1 : ¬ a.previousTxid ≠ b.previousTxid := by simp [h1]
  have hne2 : ¬ a.spentOutputIndex ≠ b.spentOutputIndex := by simp [h2]
  simp only [Input.combine, if_neg hne1, if_neg hne2]
  cases ha : a.witnessUtxo <;> cases hb : b.witnessUtxo <;>
    exact ⟨_, rfl, by
      simp [ha, hb, combineOption_eq_specKeepFirst, specKeepFirst]⟩

/-- C7 witness: `input_combine_scalar_fields` applied to the concrete input
`exInput` combined with itself pins the merged `sequence` field. -/
theorem input_combine_scalar_fields_witness :
    (exceptToOption (Input.combine exInput exInput)).map Input.sequence =
      some (specKeepFirst exInput.sequence exInput.sequence) := by
  obtain ⟨r, hok, hseq, _⟩ := input_combine_scalar_fields exInput exInput rfl rfl
  rw [hok]
  simpa [exceptToOption] using hseq

/-- Success characterization of the pairwise merge loop: the result has the
first list's length, pairs up to the shorter length are merged results, the
first list's extra elements survive unchanged, and the second list's extra
elements are dropped. -/
theorem zipCombineM_ok {α : Type} (f : α → α → Except CombineFailure α) :
    ∀ (xs ys zs : List α), zipCombineM f xs ys = .ok zs →
      zs.length = xs.length ∧ ∀ i : Nat, zs.get? i = zipSpec f xs ys i := by
  intro xs
  induction xs with
  | nil =>
    intro ys zs h
    cases ys with
    | nil =>
      simp only [zipCombineM, Except.ok.injEq] at h
      subst h
      exact ⟨rfl, fun i => by cases i <;> rfl⟩
    | cons y yt =>
      simp only [zipCombineM, Except.ok.injEq] at h
      subst h
      exact ⟨rfl, fun i => by cases i <;> rfl⟩
  | cons x xt ih =>
    intro ys zs h
    cases ys with
    | nil =>
      simp only [zipCombineM, Except.ok.injEq] at h
      subst h
      refine ⟨rfl, fun i => ?_⟩
      cases hgi : (x :: xt).get? i <;> (unfold zipSpec; rw [hgi]; try rfl)
    | cons y yt =>
      simp only [zipCombineM] at h
      cases hf : f x y with
      | error e => rw [hf] at h; exact absurd h (by simp)
      | ok z =>
        rw [hf] at h
        cases hr : zipCombineM f xt yt with
        | error e => rw [hr] at h; exact absurd h (by simp)
        | ok zt =>
          rw [hr] at h
          simp only [Except.ok.injEq] at h
          subst h
          obtain ⟨hlen, hget⟩ := ih yt zt hr
          refine ⟨by simp [hlen], fun i => ?_⟩
          cases i with
          | zero => simp [zipSpec, hf, exceptToOption]
          | succ n => simpa [zipSpec] using hget n

/-- C10: `combine_with` pairs inputs and outputs positionally up to the
shorter length and never signals a length mismatch: on success the result
has exactly the first document's numbers of inputs and outputs, position `i`
holds the pairwise merge where both documents have an `i`-th record, the
first document's extra records survive unmerged, and the second document's
extra records are discarded. -/
theorem combineWith_truncates (a b r : Psbt) (h : Psbt.combineWith a b = .ok r) :
    r.inputs.length = a.inputs.length ∧
    r.outputs.length = a.outputs.length ∧
    (∀ i : Nat, r.inputs.get? i = zipSpec Input.combine a.inputs b.inputs i) ∧
    (∀ i : Nat, r.outputs.get? i = zipSpec Output.combine a.outputs b.outputs i) := by
  unfold Psbt.combineWith at h
  cases hg : a.combineGlobal b with
  | error e => rw [hg] at h; exact absurd h (by simp)
  | ok g =>
    rw [hg] at h
    cases hi : zipCombineM Input.combine a.inputs b.inputs with
    | error e => rw [hi] at h; exact absurd h (by simp)
    | ok ins =>
      rw [hi] at h
      cases ho : zipCombineM Output.combine a.outputs b.outputs with
      | error e => rw [ho] at h; exact absurd h (by simp)
      | ok outs =>
        rw [ho] at h
        simp only [Except.ok.injEq] at h
        subst h
        obtain ⟨hil, hig⟩ := zipCombineM_ok Input.combine a.inputs b.inputs ins hi
        obtain ⟨hol, hog⟩ := zipCombineM_ok Output.combine a.outputs b.outputs outs ho
        refine ⟨?_, ?_, ?_, ?_⟩
        · simpa using hil
        · simpa using hol
        · intro i; simpa using hig i
        · intro i; simpa using hog i

/-- C10 witness: combining the one-input document with the two-input
document succeeds and the result has exactly one input. -/
theorem combineWith_truncates_witness :
    ({ exPsbtOneInput with inputCount := 3 } : Psbt).inputs.length =
      exPsbtOneInput.inputs.length :=
  (combineWith_truncates exPsbtOneInput exPsbtTwoInputs
    { exPsbtOneInput with inputCount := 3 } rfl).1

/-- If a set value occurs in the list, the iterator maximum is set. -/
theorem listMaxOpt_isSome_of_mem :
    ∀ (l : List (Option Nat)) (a : Nat), some a ∈ l → ∃ m, listMaxOpt l = some m := by
  intro l
  induction l with
  | nil => intro a h; cases h
  | cons x xs ih =>
    intro a h
    rcases List.mem_cons.mp h with hh | hh
    · subst hh
      cases hm : listMaxOpt xs with
      | none => exact ⟨a, by simp [listMaxOpt, List.foldr_cons] at hm ⊢; simp [hm, optMax]⟩
      | some m =>
        exact ⟨Nat.max a m, by simp [listMaxOpt, List.foldr_cons] at hm ⊢; simp [hm, optMax]⟩
    · obtain ⟨m, hm⟩ := ih a hh
      cases x with
      | none => exact ⟨m, by simp [listMaxOpt, List.foldr_cons] at hm ⊢; simp [hm, optMax]⟩
      | some c =>
        exact ⟨Nat.max c m, by simp [listMaxOpt, List.foldr_cons] at hm ⊢; simp [hm, optMax]⟩

/-- The iterator maximum over the optional values equals `specMax` of the
collected set values. -/
theorem listMaxOpt_map_eq {α : Type} (f : α → Option Nat) (l : List α) :
    listMaxOpt (l.map f) = specMax (l.filterMap f) := by
  induction l with
  | nil => rfl
  | cons a l ih =>
    cases hfa : f a with
    | none =>
      simp only [List.map_cons, List.filterMap_cons, hfa]
      simpa [listMaxOpt, List.foldr_cons, optMax] using ih
    | some b =>
      simp only [List.map_cons, List.filterMap_cons, hfa]
      have hstep : listMaxOpt (some b :: l.map f) = optMax (some b) (listMaxOpt (l.map f)) := rfl
      rw [hstep, ih]
      cases hsm : specMax (l.filterMap f) <;> simp [optMax, specMax, hsm]

/-- `specMax` returns an element of the list. -/
theorem specMax_mem : ∀ (l : List Nat) (m : Nat), specMax l = some m → m ∈ l := by
  intro l
  induction l with
  | nil => intro m h; cases h
  | cons x xs ih =>
    intro m h
    rw [specMax] at h
    cases hs : specMax xs with
    | none =>
      rw [hs] at h
      simp only [Option.some.injEq] at h
      exact h ▸ List.mem_cons_self x xs
    | some y =>
      rw [hs] at h
      simp only [Option.some.injEq] at h
      rcases Nat.le_total x y with hxy | hxy
      · have hm : m = y := by rw [← h]; exact Nat.max_eq_right hxy
        exact hm ▸ List.mem_cons_of_mem x (ih y hs)
      · have hm : m = x := by rw [← h]; exact Nat.max_eq_left hxy
        exact hm ▸ List.mem_cons_self x xs

/-- `specMax` bounds every element of the list. -/
theorem specMax_ge : ∀ (l : List Nat) (m : Nat), specMax l = some m → ∀ x ∈ l, x ≤ m := by
  intro l
  induction l with
  | nil => intro m _ x hx; cases hx
  | cons a xs ih =>
    intro m h x hx
    rw [specMax] at h
    cases hs : specMax xs with
    | none =>
      rw [hs] at h
      simp only [Option.some.injEq] at h
      rcases List.mem_cons.mp hx with hh | hh
      · rw [hh]; exact h.le
      · cases xs with
        | nil => cases hh
        | cons b bs => exact absurd hs (by rw [specMax]; simp)
    | some y =>
      rw [hs] at h
      simp only [Option.some.injEq] at h
      rcases List.mem_cons.mp hx with hh | hh
      · rw [hh, ← h]
        exact Nat.le_max_left a y
      · calc x ≤ y := ih y hs x hh
          _ ≤ Nat.max a y := Nat.le_max_right a y
          _ = m := h

/-- Under "some input has a lock-time field" and "all inputs are satisfied
by a height-based lock time", some input sets `min_height`, so the height
maximum exists. -/
theorem exists_maxHeight (p : Psbt)
    (hl : p.inputs.any Input.hasLockTime = true)
    (ha : p.inputs.all Input.isSatisfiedWithHeightBasedLockTime = true) :
    ∃ h, listMaxOpt (p.inputs.map Input.minHeight) = some h := by
  obtain ⟨i, hi, hlock⟩ := List.any_eq_true.mp hl
  have hsat := List.all_eq_true.mp ha i hi
  have hmh : ∃ v, i.minHeight = some v := by
    cases hmt : i.minTime <;> cases hmhh : i.minHeight <;>
      simp_all [Input.hasLockTime, Input.isSatisfiedWithHeightBasedLockTime,
        Input.requiresHeightBasedLockTime]
  obtain ⟨v, hv⟩ := hmh
  exact listMaxOpt_isSome_of_mem _ v (List.mem_map.mpr ⟨i, hi, hv⟩)

/-- Under "not all inputs are satisfied by a height-based lock time", some
input sets `min_time` (and not `min_height`), so the time maximum exists. -/
theorem exists_maxTime (p : Psbt)
    (ha : p.inputs.all Input.isSatisfiedWithHeightBasedLockTime = false) :
    ∃ t, listMaxOpt (p.inputs.map Input.minTime) = some t := by
  have hnall : ¬ ∀ i ∈ p.inputs, Input.isSatisfiedWithHeightBasedLockTime i = true := by
    intro hall
    rw [List.all_eq_true.mpr hall] at ha
    exact absurd ha (by simp)
  push_neg at hnall
  obtain ⟨i, hi, hne⟩ := hnall
  have hmt : ∃ v, i.minTime = some v := by
    cases hmtt : i.minTime <;> cases hmhh : i.minHeight <;>
      simp_all [Input.isSatisfiedWithHeightBasedLockTime, Input.requiresHeightBasedLockTime]
  obtain ⟨v, hv⟩ := hmt
  exact listMaxOpt_isSome_of_mem _ v (List.mem_map.mpr ⟨i, hi, hv⟩)

/-- C1: `determine_lock_time` behaves as the three-step algorithm.
It fails (with the `DetermineLockTimeError`) exactly when some input
requires a time-based and some input a height-based lock time — and never
hits the `expect` panics; with no conflict and no lock-time field anywhere
it returns the document's fallback lock time; with some lock-time field
present it returns the maximum `min_height` across the inputs that set it
(as a height lock time) when every input is satisfied by a height-based
lock time, and otherwise the maximum `min_time` across the inputs that set
it (as a time lock time). `specMax_mem`/`specMax_ge` certify that `specMax`
is that maximum. -/
theorem determineLockTime_spec (p : Psbt) :
    (p.determineLockTime = LtOutcome.error ↔
      (p.inputs.any Input.requiresTimeBasedLockTime = true ∧
        p.inputs.any Input.requiresHeightBasedLockTime = true)) ∧
    p.determineLockTime ≠ LtOutcome.panicked ∧
    ((p.inputs.any Input.requiresTimeBasedLockTime &&
        p.inputs.any Input.requiresHeightBasedLockTime) = false →
      p.inputs.any Input.hasLockTime = false →
      p.determineLockTime = LtOutcome.ok p.fallbackLockTime) ∧
    ((p.inputs.any Input.requiresTimeBasedLockTime &&
        p.inputs.any Input.requiresHeightBasedLockTime) = false →
      p.inputs.any Input.hasLockTime = true →
      p.inputs.all Input.isSatisfiedWithHeightBasedLockTime = true →
      ∀ h, specMax (p.inputs.filterMap Input.minHeight) = some h →
        p.determineLockTime = LtOutcome.ok (LockTime.blocks h)) ∧
    ((p.inputs.any Input.requiresTimeBasedLockTime &&
        p.inputs.any Input.requiresHeightBasedLockTime) = false →
      p.inputs.any Input.hasLockTime = true →
      p.inputs.all Input.isSatisfiedWithHeightBasedLockTime = false →
      ∀ t, specMax (p.inputs.filterMap Input.minTime) = some t →
        p.determineLockTime = LtOutcome.ok (LockTime.seconds t)) := by
  cases hconf : (p.inputs.any Input.requiresTimeBasedLockTime &&
      p.inputs.any Input.requiresHeightBasedLockTime) with
  | true =>
    have hres : p.determineLockTime = LtOutcome.error := by
      simp [Psbt.determineLockTime, hconf]
    have hconf' := Bool.and_eq_true _ _ ▸ hconf
    refine ⟨⟨fun _ => hconf', fun _ => hres⟩, by simp [hres], ?_, ?_, ?_⟩
    · intro hc; exact Bool.noConfusion hc
    · intro hc; exact Bool.noConfusion hc
    · intro hc; exact Bool.noConfusion hc
  | false =>
    have hnc : ¬ (p.inputs.any Input.requiresTimeBasedLockTime = true ∧
        p.inputs.any Input.requiresHeightBasedLockTime = true) := by
      intro hp
      rw [hp.1, hp.2] at hconf
      exact absurd hconf (by simp)
    cases hl : p.inputs.any Input.hasLockTime with
    | false =>
      have hres : p.determineLockTime = LtOutcome.ok p.fallbackLockTime := by
        simp [Psbt.determineLockTime, hconf, hl]
      refine ⟨⟨fun he => LtOutcome.noConfusion (hres.symm.trans he), fun hp => absurd hp hnc⟩,
        by simp [hres], fun _ _ => hres, ?_, ?_⟩
      · intro _ hl'; exact Bool.noConfusion hl'
      · intro _ hl'; exact Bool.noConfusion hl'
    | true =>
      cases hall : p.inputs.all Input.isSatisfiedWithHeightBasedLockTime with
      | true =>
        obtain ⟨h0, hmax0⟩ := exists_maxHeight p hl hall
        have hres : p.determineLockTime = LtOutcome.ok (LockTime.blocks h0) := by
          simp [Psbt.determineLockTime, hconf, hl, hall, hmax0]
        refine ⟨⟨fun he => LtOutcome.noConfusion (hres.symm.trans he), fun hp => absurd hp hnc⟩,
          by simp [hres], ?_, ?_, ?_⟩
        · intro _ hl'; exact Bool.noConfusion hl'
        · intro _ _ _ h hspec
          rw [← listMaxOpt_map_eq Input.minHeight p.inputs] at hspec
          have hh0 : h = h0 := Option.some.inj (hspec.symm.trans hmax0)
          rw [hh0]
          exact hres
        · intro _ _ hall'; exact Bool.noConfusion hall'
      | false =>
        obtain ⟨t0, hmax0⟩ := exists_maxTime p hall
        have hres : p.determineLockTime = LtOutcome.ok (LockTime.seconds t0) := by
          simp [Psbt.determineLockTime, hconf, hl, hall, hmax0]
        refine ⟨⟨fun he => LtOutcome.noConfusion (hres.symm.trans he), fun hp => absurd hp hnc⟩,
          by simp [hres], ?_, ?_, ?_⟩
        · intro _ hl'; exact Bool.noConfusion hl'
        · intro _ _ hall'; exact Bool.noConfusion hall'
        · intro _ _ _ t hspec
          rw [← listMaxOpt_map_eq Input.minTime p.inputs] at hspec
          have ht0 : t = t0 := Option.some.inj (hspec.symm.trans hmax0)
          rw [ht0]
          exact hres

/-- C1 witness: `determineLockTime_spec` applied to the concrete one-input
document, whose input has no lock-time fields: the resolver returns the
fallback lock time. -/
theorem determineLockTime_spec_witness :
    Psbt.determineLockTime exPsbtOneInput = LtOutcome.ok exPsbtOneInput.fallbackLockTime :=
  (determineLockTime_spec exPsbtOneInput).2.2.1 (by decide) (by decide)

/-- The funding check of `Finalizer::new` reports nothing exactly when every
input yields a funding UTXO. -/
theorem firstFundingErr_eq_none_iff (l : List Input) :
    firstFundingErr l = none ↔ ∀ i ∈ l, exceptIsOk i.fundingUtxo = true := by
  induction l with
  | nil => simp [firstFundingErr]
  | cons i rest ih =>
    cases hf : i.fundingUtxo with
    | error e => simp [firstFundingErr, hf, exceptIsOk]
    | ok u => simp [firstFundingErr, hf, exceptIsOk, ih]

/-- Every standard sighash flag round-trips through `from_standard`. -/
theorem fromStandard_toNum (t : EcdsaSighashType) : fromStandard t.toNum = some t := by
  cases t <;> rfl

/-- If the signature loop of the sighash check succeeds, every recorded
signature carries exactly the target flag. -/
theorem checkSigsList_ok (idx : Nat) (t : EcdsaSighashType) :
    ∀ l, checkSigsList idx t l = .ok () → ∀ ks ∈ l, ks.2.sighashTy = t := by
  intro l
  induction l with
  | nil => intro _ ks hks; cases hks
  | cons e rest ih =>
    obtain ⟨k, s⟩ := e
    intro h ks hks
    rw [checkSigsList] at h
    simp only [fromStandard_toNum] at h
    split at h
    · exact absurd h (by simp)
    · rename_i hcond
      have hts : t = s.sighashTy := not_not.mp hcond
      rcases List.mem_cons.mp hks with hh | hh
      · subst hh; exact hts.symm
      · exact ih h ks hh

/-- If the whole sighash check succeeds, every input's recorded signatures
match that input's declared-or-default sighash type. -/
theorem checkAllSighash_ok :
    ∀ (idx : Nat) (l : List Input), checkAllSighash idx l = .ok () →
      ∀ i ∈ l, ∀ ks ∈ i.partSigs, sigTargetMatches i ks.2 := by
  intro idx l
  induction l generalizing idx with
  | nil => intro _ i hi; cases hi
  | cons j rest ih =>
    intro h i hi ks hks
    rw [checkAllSighash] at h
    cases hc : checkInputSighash idx j with
    | error e => rw [hc] at h; exact absurd h (by simp)
    | ok u =>
      rw [hc] at h
      rcases List.mem_cons.mp hi with hh | hh
      · subst hh
        rw [checkInputSighash] at hc
        cases hst : i.sighashType with
        | none =>
          simp only [hst] at hc
          have hsig := checkSigsList_ok idx EcdsaSighashType.all i.partSigs
            (by cases u; exact hc) ks hks
          simp [sigTargetMatches, hst, hsig]
        | some ty =>
          simp only [hst] at hc
          cases hfs : fromStandard ty with
          | none => simp only [hfs] at hc; cases hc
          | some t =>
            simp only [hfs] at hc
            have hsig := checkSigsList_ok idx t i.partSigs (by cases u; exact hc) ks hks
            simp [sigTargetMatches, hst, hfs, hsig]
      · exact ih (idx + 1) h i hh ks hks

/-- C8: `Finalizer::new` fails with a funding-UTXO error whenever any input
fails to yield a funding UTXO (missing evidence or an out-of-bounds
`spent_output_index`), regardless of any other field; and it succeeds only
if every input yields a funding UTXO, the lock time is determinable, and
every partial signature's sighash flag matches the input's declared or
default sighash type. -/
theorem finalizer_new_spec (p : Psbt) :
    ((p.inputs.any fun i => !exceptIsOk i.fundingUtxo) = true →
      ∃ e, finalizerNew p = .error (.fundingUtxo e)) ∧
    (∀ q, finalizerNew p = .ok q →
      (∀ i ∈ p.inputs, exceptIsOk i.fundingUtxo = true) ∧
      (∃ lt, p.determineLockTime = .ok lt) ∧
      ∀ i ∈ p.inputs, ∀ ks ∈ i.partSigs, sigTargetMatches i ks.2) := by
  constructor
  · intro hany
    cases hf : firstFundingErr p.inputs with
    | none =>
      exfalso
      obtain ⟨i, hi, hbad⟩ := List.any_eq_true.mp hany
      have := (firstFundingErr_eq_none_iff p.inputs).mp hf i hi
      simp [this] at hbad
    | some e => exact ⟨e, by simp [finalizerNew, hf]⟩
  · intro q hq
    unfold finalizerNew at hq
    cases hf : firstFundingErr p.inputs with
    | some e => rw [hf] at hq; exact absurd hq (by simp)
    | none =>
      rw [hf] at hq
      cases hlt : p.determineLockTime with
      | error => rw [hlt] at hq; exact absurd hq (by simp)
      | panicked => rw [hlt] at hq; exact absurd hq (by simp)
      | ok lt =>
        rw [hlt] at hq
        cases hcs : checkAllSighash 0 p.inputs with
        | error e => rw [hcs] at hq; exact absurd hq (by simp)
        | ok u =>
          refine ⟨(firstFundingErr_eq_none_iff p.inputs).mp hf, ⟨lt, rfl⟩, ?_⟩
          exact checkAllSighash_ok 0 p.inputs (by cases u; exact hcs)

/-- C8 witness: `finalizer_new_spec` applied to the concrete one-input
document whose input carries no funding evidence. -/
theorem finalizer_new_spec_witness :
    (exPsbtOneInput.inputs.any fun i => !exceptIsOk i.fundingUtxo) = true ∧
    finalizerNew exPsbtOneInput ≠ FinalizerOutcome.ok exPsbtOneInput := by
  refine ⟨by decide, ?_⟩
  obtain ⟨e, he⟩ := (finalizer_new_spec exPsbtOneInput).1 (by decide)
  rw [he]
  exact fun hcontra => FinalizerOutcome.noConfusion hcontra

/-- C9: the v0 output validator, as written, keys the `HasAmount` error on
the record's `sequence` field rather than on `amount`: a record with a
present amount (and no sequence, no script) passes, while a record with a
present sequence and no amount is rejected with `HasAmount` — contradicting
the claim and the error variants' own documentation. -/
theorem output_assert_v0_eval :
    outputAssertIsValidV0 { sequence := none, amount := some 5, scriptPubkey := none } =
      .ok () ∧
    outputAssertIsValidV0 { sequence := some 0, amount := none, scriptPubkey := none } =
      .error .hasAmount ∧
    outputAssertIsValidV0 { sequence := none, amount := none, scriptPubkey := some 3 } =
      .error .hasScriptPubkey := by
  refine ⟨rfl, rfl, rfl⟩

end PsbtV2
